import Mathlib

/- Shallow embedding of the numeric core of src/src/App.tsx of the
   calculoaposentadoria repository.  JavaScript numbers are modelled as
   rationals (reals where a transcendental function is involved).  The
   transcendental annual-to-monthly rate conversion, Math.pow with
   exponent 1/12, has no rational counterpart, so wherever the source
   applies it the embedding takes the conversion as an explicit
   function parameter; theorems about the solver quantify over that
   parameter.  All other arithmetic is exact field arithmetic. -/

/-- Lump models the source record type Lump, App.tsx line 223: an id
used only for UI correlation, a target month which may be fractional
since it comes from a numeric input, and a signed amount. -/
structure Lump where
  id : ℤ
  month : ℚ
  amount : ℚ
deriving DecidableEq

/-- Row models one emitted projection row, the anonymous record with
fields m and wealth pushed by the projection loops. -/
structure Row where
  m : ℕ
  wealth : ℚ
deriving DecidableEq

/-- clipMonth models the clipping expression of App.tsx line 245 and
line 280: Math.max(0, Math.min(months, Math.floor(ls.month))). -/
def clipMonth (months : ℕ) (m : ℚ) : ℕ :=
  (max 0 (min (months : ℤ) ⌊m⌋)).toNat

/-- addLump models one iteration of the bucket-building loop of
App.tsx lines 244-247: byMonth.set(m, (byMonth.get(m) or 0) + amount),
with the month map represented as a total function that is 0 where the
source map has no entry. -/
def addLump (months : ℕ) (acc : ℕ → ℚ) (ls : Lump) : ℕ → ℚ :=
  fun t => if t = clipMonth months ls.month then acc t + ls.amount else acc t

/-- buildByMonth models the byMonth map built by projectToRetirement
(App.tsx lines 243-247) and projectFullTo100 (lines 278-282). -/
def buildByMonth (months : ℕ) (lumpSums : List Lump) : ℕ → ℚ :=
  lumpSums.foldl (addLump months) (fun _ => 0)

/-- accumStep models the accumulation update of App.tsx lines 250-251:
W = W * (1 + monthlyRealReturn) + monthlySaving + oneOff, where oneOff
is the bucket for month t+1. -/
def accumStep (byMonth : ℕ → ℚ) (monthlySaving monthlyRealReturn : ℚ)
    (t : ℕ) (W : ℚ) : ℚ :=
  W * (1 + monthlyRealReturn) + monthlySaving + byMonth (t + 1)

/-- genLoop models the row-emitting loops of both projection functions
(App.tsx lines 248-252 and 283-291): starting at month index t with
running wealth W and fuel months remaining, it pushes (t, emit W) and
advances W by the step rule.  projectToRetirement instantiates emit
with the identity, projectFullTo100 with flooring at zero. -/
def genLoop (emit : ℚ → ℚ) (step : ℕ → ℚ → ℚ) : ℕ → ℕ → ℚ → List Row
  | 0, t, W => [⟨t, emit W⟩]
  | k+1, t, W => ⟨t, emit W⟩ :: genLoop emit step k (t+1) (step t W)

/-- iterFrom is the pure wealth recursion underlying the loops: the
wealth after i steps of the step rule, starting at month t with
wealth W. -/
def iterFrom (step : ℕ → ℚ → ℚ) (t : ℕ) (W : ℚ) : ℕ → ℚ
  | 0 => W
  | i+1 => step (t + i) (iterFrom step t W i)

/-- projectToRetirement models App.tsx lines 228-254: the single-regime
accumulation projection.  The source loops t from 0 to months pushing
rows and updating W; months is a natural number because every call
site passes Math.max(0, ...) of an integer. -/
def projectToRetirement (currentWealth monthlySaving : ℚ) (months : ℕ)
    (monthlyRealReturn : ℚ) (lumpSums : List Lump) : List Row :=
  genLoop (fun W => W)
    (accumStep (buildByMonth months lumpSums) monthlySaving monthlyRealReturn)
    months 0 currentWealth

/-- monthsTo100 models App.tsx line 275: Math.max(0, (100 - age) * 12). -/
def monthsTo100 (age : ℤ) : ℕ :=
  (max 0 ((100 - age) * 12)).toNat

/-- fullStep models the branch of App.tsx lines 285-290: accumulation
step while t is below monthsToRetire, decumulation step
W * (1 + monthlyRetireReturn) - monthlySpend otherwise. -/
def fullStep (byMonth : ℕ → ℚ) (monthsToRetire : ℕ)
    (monthlySaving monthlyAccumReturn monthlyRetireReturn monthlySpend : ℚ)
    (t : ℕ) (W : ℚ) : ℚ :=
  if t < monthsToRetire then
    W * (1 + monthlyAccumReturn) + monthlySaving + byMonth (t + 1)
  else
    W * (1 + monthlyRetireReturn) - monthlySpend

/-- projectFullTo100 models App.tsx lines 256-293: the two-regime
projection to age 100, emitting max(0, W) each month while carrying
the unfloored W forward; the lump map is clipped to monthsToRetire. -/
def projectFullTo100 (age : ℤ) (currentWealth : ℚ) (monthsToRetire : ℕ)
    (monthlySaving monthlyAccumReturn monthlyRetireReturn monthlySpend : ℚ)
    (lumpSums : List Lump) : List Row :=
  genLoop (fun W => max 0 W)
    (fullStep (buildByMonth monthsToRetire lumpSums) monthsToRetire
      monthlySaving monthlyAccumReturn monthlyRetireReturn monthlySpend)
    (monthsTo100 age) 0 currentWealth

/-- wealthAtRetireWithMonthlyAccum models App.tsx lines 365-374: the
last row's wealth of the accumulation projection at a probed monthly
rate, falling back to currentWealth when the array is empty. -/
def wealthAtRetireWithMonthlyAccum (currentWealth monthlySaving : ℚ)
    (months : ℕ) (lumpSums : List Lump) (monthlyRate : ℚ) : ℚ :=
  match (projectToRetirement currentWealth monthlySaving months monthlyRate
      lumpSums).getLast? with
  | some row => row.wealth
  | none => currentWealth

/-- expandLoop models the bracket-expansion loop of App.tsx lines
383-389: at most 10 iterations, each entered only while fLo * fHi > 0,
widening the annual bracket by 1/4 per side, re-evaluating the
objective f at both ends, and breaking out once hiA exceeds 3.  The
state is the tuple (loA, hiA, fLo, fHi). -/
def expandLoop (f : ℚ → ℚ) : ℕ → ℚ → ℚ → ℚ → ℚ → ℚ × ℚ × ℚ × ℚ
  | 0, loA, hiA, fLo, fHi => (loA, hiA, fLo, fHi)
  | i+1, loA, hiA, fLo, fHi =>
    if 0 < fLo * fHi then
      let loA2 := loA - 1/4
      let hiA2 := hiA + 1/4
      let fLo2 := f loA2
      let fHi2 := f hiA2
      if 3 < hiA2 then (loA2, hiA2, fLo2, fHi2)
      else expandLoop f i loA2 hiA2 fLo2 fHi2
    else (loA, hiA, fLo, fHi)

/-- bisectLoop models the bisection loop of App.tsx lines 391-401: 40
iterations on the annual bracket, returning the midpoint early when
the absolute objective value drops below 1, keeping the half-bracket
on which the stored endpoint values change sign, and returning the
final midpoint when the fuel runs out. -/
def bisectLoop (f : ℚ → ℚ) : ℕ → ℚ → ℚ → ℚ → ℚ → ℚ
  | 0, loA, hiA, _, _ => (loA + hiA) / 2
  | it+1, loA, hiA, fLo, fHi =>
    let midA := (loA + hiA) / 2
    let fMid := f midA
    if |fMid| < 1 then midA
    else if fLo * fMid ≤ 0 then bisectLoop f it loA midA fLo fMid
    else bisectLoop f it midA hiA fMid fHi

/-- solveRequiredMonthlyAccum models App.tsx lines 375-403.  The
closure captures of the source (currentWealth, monthlySaving,
monthsToRetire, lumpSums and the derived wealthAtRetire) are explicit
parameters here, and the local toMonthly conversion, which the source
computes as Math.pow(1 + annual, 1/12) - 1, is the function parameter
toMonthly since it has no exact rational counterpart.  null is
modelled as none.  The source computes the initial fLo and fHi before
the already-met check; both are pure, so the order is immaterial. -/
def solveRequiredMonthlyAccum (toMonthly : ℚ → ℚ)
    (currentWealth monthlySaving : ℚ) (monthsToRetire : ℕ)
    (lumpSums : List Lump) (wealthAtRetire target : ℚ) : Option ℚ :=
  if monthsToRetire = 0 then none
  else
    let f : ℚ → ℚ := fun a =>
      wealthAtRetireWithMonthlyAccum currentWealth monthlySaving
        monthsToRetire lumpSums (toMonthly a) - target
    if target ≤ wealthAtRetire then some 0
    else
      match expandLoop f 10 (-(1/2)) (1/2) (f (-(1/2))) (f (1/2)) with
      | (loA, hiA, fLo, fHi) =>
        if 0 < fLo * fHi then none
        else some (bisectLoop f 40 loA hiA fLo fHi)

/-- goalClipMonth models the clipping of App.tsx line 428:
Math.max(1, Math.floor(ls.month)); note the absence of an upper clip. -/
def goalClipMonth (m : ℚ) : ℕ :=
  (max 1 ⌊m⌋).toNat

/-- addGoalLump models one iteration of the bucket loop of App.tsx
lines 427-430. -/
def addGoalLump (acc : ℕ → ℚ) (ls : Lump) : ℕ → ℚ :=
  fun t => if t = goalClipMonth ls.month then acc t + ls.amount else acc t

/-- buildGoalByMonth models the byMonth map of App.tsx lines 426-430. -/
def buildGoalByMonth (lumpSums : List Lump) : ℕ → ℚ :=
  lumpSums.foldl addGoalLump (fun _ => 0)

/-- goalLoop models the search loop of App.tsx lines 433-437: with
fuel k remaining it checks wealth against the target at month t,
returning t on success, and otherwise advances by the accumulation
step rule; none models the source's Infinity. -/
def goalLoop (byMonth : ℕ → ℚ) (s r target : ℚ) : ℕ → ℕ → ℚ → Option ℕ
  | 0, t, W => if target ≤ W then some t else none
  | k+1, t, W =>
    if target ≤ W then some t
    else goalLoop byMonth s r target k (t+1) (accumStep byMonth s r t W)

/-- monthsToGoalAtCurrentPlan models App.tsx lines 423-439: 0 when the
target is non-positive, otherwise a forward search capped at month
1200, with lump sums clipped from below to month 1. -/
def monthsToGoalAtCurrentPlan (targetWealth currentWealth monthlySaving : ℚ)
    (lumpSums : List Lump) (monthlyAccum : ℚ) : Option ℕ :=
  if targetWealth ≤ 0 then some 0
  else
    goalLoop (buildGoalByMonth lumpSums) monthlySaving monthlyAccum
      targetWealth 1200 0 currentWealth

/-- yearsOfRunway models App.tsx lines 412-419: the closed-form
depletion runway; none models the source's Infinity. -/
noncomputable def yearsOfRunway (startingWealth annualSpend realReturnAnnual : ℝ) :
    Option ℝ :=
  let r := realReturnAnnual / 100
  if annualSpend ≤ 0 then none
  else if r = 0 then some (startingWealth / annualSpend)
  else
    let ratio := 1 - startingWealth * r / annualSpend
    if ratio ≤ 0 then none
    else some (-Real.log ratio / Real.log (1 + r))

/-- monthlyRateFromRealAnnual models App.tsx lines 220-222; it is the
transcendental conversion abstracted as the toMonthly parameter of the
solver (there applied to 1 + annual with the division by 100 already
folded in by the caller). -/
noncomputable def monthlyRateFromRealAnnual (realAnnualPct : ℝ) : ℝ :=
  (1 + realAnnualPct / 100) ^ ((1 : ℝ) / 12) - 1

/- Basic lemmas about the loops. -/

theorem iterFrom_zero (step : ℕ → ℚ → ℚ) (t : ℕ) (W : ℚ) :
    iterFrom step t W 0 = W := rfl

theorem iterFrom_succ (step : ℕ → ℚ → ℚ) (t : ℕ) (W : ℚ) (i : ℕ) :
    iterFrom step t W (i+1) = step (t + i) (iterFrom step t W i) := rfl

theorem iterFrom_shift (step : ℕ → ℚ → ℚ) (t : ℕ) (W : ℚ) (i : ℕ) :
    iterFrom step t W (i+1) = iterFrom step (t+1) (step t W) i := by
  induction i with
  | zero => rfl
  | succ i ih =>
    rw [iterFrom_succ, ih, iterFrom_succ]
    ring_nf

theorem genLoop_eq_map (emit : ℚ → ℚ) (step : ℕ → ℚ → ℚ) :
    ∀ (k t : ℕ) (W : ℚ), genLoop emit step k t W =
      (List.range (k+1)).map (fun i => ⟨t + i, emit (iterFrom step t W i)⟩) := by
  intro k
  induction k with
  | zero => intro t W; simp [genLoop, List.range_succ, iterFrom]
  | succ k ih =>
    intro t W
    rw [genLoop, ih (t+1) (step t W)]
    conv_rhs => rw [List.range_succ_eq_map, List.map_cons, List.map_map]
    congr 1
    apply List.map_congr_left
    intro i hi
    have h1 : t + 1 + i = t + (i + 1) := by omega
    have h2 : iterFrom step (t+1) (step t W) i = iterFrom step t W (i+1) :=
      (iterFrom_shift step t W i).symm
    simp [Function.comp_apply, Nat.succ_eq_add_one, h1, h2, iterFrom_succ]

theorem genLoop_getLast? (emit : ℚ → ℚ) (step : ℕ → ℚ → ℚ) (k t : ℕ) (W : ℚ) :
    (genLoop emit step k t W).getLast? =
      some ⟨t + k, emit (iterFrom step t W k)⟩ := by
  rw [genLoop_eq_map, List.range_succ, List.map_append]
  simp

theorem wealthAtRetireWithMonthlyAccum_eq (W0 s : ℚ) (n : ℕ)
    (L : List Lump) (r : ℚ) :
    wealthAtRetireWithMonthlyAccum W0 s n L r =
      iterFrom (accumStep (buildByMonth n L) s r) 0 W0 n := by
  rw [wealthAtRetireWithMonthlyAccum, projectToRetirement, genLoop_getLast?]

/- Characterization of the lump-sum buckets. -/

theorem foldl_addLump_eq (months : ℕ) :
    ∀ (M : List Lump) (acc : ℕ → ℚ) (t : ℕ),
      (M.foldl (addLump months) acc) t =
        acc t + ((M.filter (fun l => decide (clipMonth months l.month = t))).map
          Lump.amount).sum := by
  intro M
  induction M with
  | nil => intro acc t; simp
  | cons l M ih =>
    intro acc t
    rw [List.foldl_cons, ih]
    simp only [addLump, List.filter_cons]
    by_cases h : clipMonth months l.month = t
    · rw [if_pos h.symm]
      simp [h]
      ring
    · rw [if_neg (fun hh => h hh.symm)]
      simp [h]

theorem buildByMonth_eq_sum (months : ℕ) (M : List Lump) (t : ℕ) :
    buildByMonth months M t =
      ((M.filter (fun l => decide (clipMonth months l.month = t))).map
        Lump.amount).sum := by
  rw [buildByMonth, foldl_addLump_eq]
  simp

theorem buildByMonth_cons (months : ℕ) (l : Lump) (M : List Lump) (t : ℕ) :
    buildByMonth months (l :: M) t =
      buildByMonth months M t +
        (if clipMonth months l.month = t then l.amount else 0) := by
  rw [buildByMonth_eq_sum, buildByMonth_eq_sum, List.filter_cons]
  by_cases h : clipMonth months l.month = t
  · simp [h]; ring
  · simp [h]

theorem foldl_addGoalLump_eq :
    ∀ (M : List Lump) (acc : ℕ → ℚ) (t : ℕ),
      (M.foldl addGoalLump acc) t =
        acc t + ((M.filter (fun l => decide (goalClipMonth l.month = t))).map
          Lump.amount).sum := by
  intro M
  induction M with
  | nil => intro acc t; simp
  | cons l M ih =>
    intro acc t
    rw [List.foldl_cons, ih]
    simp only [addGoalLump, List.filter_cons]
    by_cases h : goalClipMonth l.month = t
    · rw [if_pos h.symm]
      simp [h]
      ring
    · rw [if_neg (fun hh => h hh.symm)]
      simp [h]

theorem buildGoalByMonth_eq_sum (M : List Lump) (t : ℕ) :
    buildGoalByMonth M t =
      ((M.filter (fun l => decide (goalClipMonth l.month = t))).map
        Lump.amount).sum := by
  rw [buildGoalByMonth, foldl_addGoalLump_eq]
  simp

/- Clipping arithmetic. -/

theorem clipMonth_of_gt (months : ℕ) (m : ℚ) (h : (months : ℚ) < m) :
    clipMonth months m = months := by
  have hfl : (months : ℤ) ≤ ⌊m⌋ := by
    rw [Int.le_floor]
    push_cast
    exact le_of_lt h
  rw [clipMonth, min_eq_left hfl, max_eq_right (by positivity)]
  simp

theorem clipMonth_of_nonpos (months : ℕ) (m : ℚ) (h : m ≤ 0) :
    clipMonth months m = 0 := by
  have hfl : ⌊m⌋ ≤ 0 := by
    rw [Int.floor_le_iff]
    push_cast
    linarith
  rw [clipMonth]
  omega

theorem clipMonth_natCast (months : ℕ) (k : ℕ) (h : k ≤ months) :
    clipMonth months ((k : ℚ)) = k := by
  rw [clipMonth, Int.floor_natCast]
  omega

theorem goalClipMonth_of_nonpos (m : ℚ) (h : m ≤ 0) :
    goalClipMonth m = 1 := by
  have hfl : ⌊m⌋ ≤ 0 := by
    rw [Int.floor_le_iff]
    push_cast
    linarith
  rw [goalClipMonth]
  omega

theorem goalClipMonth_one : goalClipMonth (1 : ℚ) = 1 := by
  rw [goalClipMonth, Int.floor_one]
  rfl

/- Congruence of the loops in the step function. -/

theorem genLoop_congr_le (emit : ℚ → ℚ) (st st2 : ℕ → ℚ → ℚ) :
    ∀ (k t : ℕ) (W : ℚ), (∀ u V, t ≤ u → st u V = st2 u V) →
      genLoop emit st k t W = genLoop emit st2 k t W := by
  intro k
  induction k with
  | zero => intro t W _; rfl
  | succ k ih =>
    intro t W h
    rw [genLoop, genLoop, h t W (le_refl t),
      ih (t+1) (st2 t W) (fun u V hu => h u V (by omega))]

theorem iterFrom_congr_lt (st st2 : ℕ → ℚ → ℚ) (t : ℕ) (W : ℚ) :
    ∀ i : ℕ, (∀ u V, u < t + i → st u V = st2 u V) →
      iterFrom st t W i = iterFrom st2 t W i := by
  intro i
  induction i with
  | zero => intro _; rfl
  | succ i ih =>
    intro h
    rw [iterFrom_succ, iterFrom_succ, ih (fun u V hu => h u V (by omega)),
      h (t+i) _ (by omega)]

/- Non-negativity and monotonicity of the accumulation recursion. -/

theorem iterFrom_accum_nonneg (b : ℕ → ℚ) (s r : ℚ) (t : ℕ) (W : ℚ)
    (hb : ∀ u, 0 ≤ b u) (hs : 0 ≤ s) (hr : -1 ≤ r) (hW : 0 ≤ W) :
    ∀ i, 0 ≤ iterFrom (accumStep b s r) t W i := by
  intro i
  induction i with
  | zero => exact hW
  | succ i ih =>
    rw [iterFrom_succ, accumStep]
    have h1 : 0 ≤ 1 + r := by linarith
    have h2 := mul_nonneg ih h1
    have h3 := hb (t + i + 1)
    linarith

theorem iterFrom_mono_rate (b : ℕ → ℚ) (s r r2 : ℚ) (t : ℕ) (W : ℚ)
    (hb : ∀ u, 0 ≤ b u) (hs : 0 ≤ s) (hr : -1 ≤ r) (hr2 : r ≤ r2) (hW : 0 ≤ W) :
    ∀ i, iterFrom (accumStep b s r) t W i ≤ iterFrom (accumStep b s r2) t W i := by
  intro i
  induction i with
  | zero => exact le_refl W
  | succ i ih =>
    rw [iterFrom_succ, iterFrom_succ, accumStep, accumStep]
    have h0 : 0 ≤ iterFrom (accumStep b s r) t W i :=
      iterFrom_accum_nonneg b s r t W hb hs hr hW i
    have h1 : 0 ≤ 1 + r := by linarith
    have h2 : 1 + r ≤ 1 + r2 := by linarith
    have hm := mul_le_mul ih h2 h1 (le_trans h0 ih)
    linarith

theorem iterFrom_mono_flow (b : ℕ → ℚ) (s s2 r : ℚ) (t : ℕ) (W : ℚ)
    (hr : -1 ≤ r) (hs : s ≤ s2) :
    ∀ i, iterFrom (accumStep b s r) t W i ≤ iterFrom (accumStep b s2 r) t W i := by
  intro i
  induction i with
  | zero => exact le_refl W
  | succ i ih =>
    rw [iterFrom_succ, iterFrom_succ, accumStep, accumStep]
    have h1 : 0 ≤ 1 + r := by linarith
    have h2 := mul_le_mul_of_nonneg_right ih h1
    linarith

theorem buildByMonth_nonneg (months : ℕ) (M : List Lump)
    (hM : ∀ l ∈ M, 0 ≤ l.amount) (t : ℕ) : 0 ≤ buildByMonth months M t := by
  rw [buildByMonth_eq_sum]
  apply List.sum_nonneg
  intro x hx
  simp only [List.mem_map] at hx
  obtain ⟨l, hl, rfl⟩ := hx
  exact hM l (List.mem_of_mem_filter hl)

theorem buildByMonth_nil (months : ℕ) : buildByMonth months [] = fun _ => 0 := rfl

/- Closed-form annuity value of the accumulation recursion without
lump sums. -/

theorem iterFrom_closed_form (s r W0 : ℚ) (hr : r ≠ 0) :
    ∀ n : ℕ, iterFrom (accumStep (fun _ => 0) s r) 0 W0 n =
      W0 * (1 + r)^n + s * ((1 + r)^n - 1) / r := by
  intro n
  induction n with
  | zero => simp [iterFrom]
  | succ n ih =>
    rw [iterFrom_succ, accumStep, ih, pow_succ]
    field_simp
    ring

/- The goal-search loop is a first-match search over the wealth
recursion. -/

theorem goalLoop_eq_find? (b : ℕ → ℚ) (s r target : ℚ) :
    ∀ (k t : ℕ) (W : ℚ), goalLoop b s r target k t W =
      ((List.range (k+1)).find? (fun i =>
        decide (target ≤ iterFrom (accumStep b s r) t W i))).map (t + ·) := by
  intro k
  induction k with
  | zero =>
    intro t W
    rw [goalLoop, List.range_succ]
    by_cases h : target ≤ W
    · simp [h, iterFrom]
    · simp [h, iterFrom]
  | succ k ih =>
    intro t W
    rw [goalLoop]
    conv_rhs => rw [List.range_succ_eq_map]
    by_cases h : target ≤ W
    · rw [if_pos h]
      simp [iterFrom, h]
    · rw [if_neg h, ih (t+1) (accumStep b s r t W)]
      have h0 : (decide (target ≤ iterFrom (accumStep b s r) t W 0)) = false := by
        simp [iterFrom, h]
      simp only [List.find?_cons, h0, List.find?_map, Option.map_map]
      have hp : ((fun i => decide (target ≤ iterFrom (accumStep b s r) t W i)) ∘
            Nat.succ) =
          (fun i => decide (target ≤
            iterFrom (accumStep b s r) (t+1) (accumStep b s r t W) i)) := by
        funext i
        simp only [Function.comp_apply, Nat.succ_eq_add_one]
        rw [iterFrom_shift]
      rw [hp]
      refine congrArg₂ _ (funext fun x => ?_) rfl
      simp only [Function.comp_apply, Nat.succ_eq_add_one]
      omega

/- Spec-modelled reference for the RequiredReturnSolver search.  These
definitions follow the words of spec.md section 4.5 rather than the
source, for comparison with solveRequiredMonthlyAccum. -/

/-- specExpand is modelled from the spec: evaluate the objective at
both bracket ends; if the signs do not differ, expand symmetrically by
1/4 per side, up to a search cap of annual rate 3, re-testing each
time; report none (unsolvable) when the next expansion would pass the
cap without a sign change having been found. -/
def specExpand (f : ℚ → ℚ) (loA hiA : ℚ) : Option (ℚ × ℚ) :=
  if f loA * f hiA ≤ 0 then some (loA, hiA)
  else if 3 < hiA + 1/4 then none
  else specExpand f (loA - 1/4) (hiA + 1/4)
termination_by (Int.ceil ((3 - hiA) * 4)).toNat
decreasing_by
  rename_i _h1 h2
  have h3 : hiA + 1/4 ≤ 3 := le_of_not_lt h2
  have hx : (1:ℚ) ≤ (3 - hiA) * 4 := by linarith [h3]
  have hc : Int.ceil ((3 - (hiA + 1/4)) * 4) = Int.ceil ((3 - hiA) * 4) - 1 := by
    have he : (3 - (hiA + 1/4)) * 4 = (3 - hiA) * 4 - ((1:ℤ):ℚ) := by
      push_cast
      ring
    rw [he, Int.ceil_sub_int]
  have hge : (1:ℤ) ≤ Int.ceil ((3 - hiA) * 4) := by
    have h4 := Int.ceil_le_ceil hx
    rwa [Int.ceil_one] at h4
  omega

/-- specBisect is modelled from the spec: standard bisection for a
fixed iteration budget, terminating early with the midpoint as soon as
the absolute objective value at the midpoint is below 1, and returning
the final midpoint when the budget runs out. -/
def specBisect (f : ℚ → ℚ) : ℕ → ℚ → ℚ → ℚ
  | 0, loA, hiA => (loA + hiA) / 2
  | it+1, loA, hiA =>
    let midA := (loA + hiA) / 2
    if |f midA| < 1 then midA
    else if f loA * f midA ≤ 0 then specBisect f it loA midA
    else specBisect f it midA hiA

/-- solveSpecDescribed is modelled from the spec, section 4.5: for a
positive horizon whose target is not already met, bisect on the annual
rate over the initial bracket from -1/2 to 1/2 after expanding it to a
sign change (none when no bracket is found within the cap), running 40
bisection iterations with early exit within 1 currency unit. -/
def solveSpecDescribed (toMonthly : ℚ → ℚ)
    (currentWealth monthlySaving : ℚ) (monthsToRetire : ℕ)
    (lumpSums : List Lump) (target : ℚ) : Option ℚ :=
  let f : ℚ → ℚ := fun a =>
    wealthAtRetireWithMonthlyAccum currentWealth monthlySaving
      monthsToRetire lumpSums (toMonthly a) - target
  match specExpand f (-(1/2)) (1/2) with
  | none => none
  | some (loA, hiA) => some (specBisect f 40 loA hiA)

/- Equivalence of the source loops with the spec-modelled search. -/

theorem bisectLoop_eq_spec (f : ℚ → ℚ) :
    ∀ (it : ℕ) (loA hiA : ℚ),
      bisectLoop f it loA hiA (f loA) (f hiA) = specBisect f it loA hiA := by
  intro it
  induction it with
  | zero => intro loA hiA; rfl
  | succ it ih =>
    intro loA hiA
    rw [bisectLoop, specBisect]
    by_cases h1 : |f ((loA + hiA)/2)| < 1
    · simp [h1]
    · by_cases h2 : f loA * f ((loA + hiA)/2) ≤ 0
      · simp [h1, h2, ih]
      · simp [h1, h2, ih]

theorem expandLoop_eq_spec (f : ℚ → ℚ) :
    ∀ (k : ℕ) (loA hiA : ℚ), hiA + (k : ℚ)/4 = 3 →
      ∃ lo hi, expandLoop f k loA hiA (f loA) (f hiA) = (lo, hi, f lo, f hi) ∧
        (0 < f lo * f hi → specExpand f loA hiA = none) ∧
        (f lo * f hi ≤ 0 → specExpand f loA hiA = some (lo, hi)) := by
  intro k
  induction k with
  | zero =>
    intro loA hiA hcap
    have h3 : hiA = 3 := by
      push_cast at hcap
      linarith
    refine ⟨loA, hiA, rfl, ?_, ?_⟩
    · intro hpos
      rw [specExpand, if_neg (not_le.mpr hpos), if_pos (by linarith)]
    · intro hle
      rw [specExpand, if_pos hle]
  | succ k ih =>
    intro loA hiA hcap
    have hcap2 : hiA + 1/4 + (k : ℚ)/4 = 3 := by
      push_cast at hcap
      linarith
    have hno : ¬ 3 < hiA + 1/4 := by
      have hk : (0:ℚ) ≤ (k : ℚ)/4 := by positivity
      linarith
    by_cases hpos : 0 < f loA * f hiA
    · rw [expandLoop]
      rw [if_pos hpos]
      simp only [if_neg hno]
      obtain ⟨lo, hi, hE, hs1, hs2⟩ := ih (loA - 1/4) (hiA + 1/4) hcap2
      refine ⟨lo, hi, hE, ?_, ?_⟩
      · intro hp
        rw [specExpand, if_neg (not_le.mpr hpos), if_neg hno]
        exact hs1 hp
      · intro hl
        rw [specExpand, if_neg (not_le.mpr hpos), if_neg hno]
        exact hs2 hl
    · rw [expandLoop]
      rw [if_neg hpos]
      have hle : f loA * f hiA ≤ 0 := le_of_not_lt hpos
      refine ⟨loA, hiA, rfl, fun hp => absurd hp hpos, fun _ => ?_⟩
      rw [specExpand, if_pos hle]

/- Further congruence helpers. -/

theorem genLoop_congr_range (emit : ℚ → ℚ) (st st2 : ℕ → ℚ → ℚ) :
    ∀ (k t : ℕ) (W : ℚ), (∀ u V, t ≤ u → u < t + k → st u V = st2 u V) →
      genLoop emit st k t W = genLoop emit st2 k t W := by
  intro k
  induction k with
  | zero => intro t W _; rfl
  | succ k ih =>
    intro t W h
    rw [genLoop, genLoop, h t W (le_refl t) (by omega),
      ih (t+1) (st2 t W) (fun u V h1 h2 => h u V (by omega) (by omega))]

theorem buildGoalByMonth_cons (l : Lump) (M : List Lump) (t : ℕ) :
    buildGoalByMonth (l :: M) t =
      buildGoalByMonth M t +
        (if goalClipMonth l.month = t then l.amount else 0) := by
  rw [buildGoalByMonth_eq_sum, buildGoalByMonth_eq_sum, List.filter_cons]
  by_cases h : goalClipMonth l.month = t
  · simp [h]
    ring
  · simp [h]

theorem projectToRetirement_cons_nonpos (W0 s r : ℚ) (months : ℕ) (l : Lump)
    (L : List Lump) (h : l.month ≤ 0) :
    projectToRetirement W0 s months r (l :: L) =
      projectToRetirement W0 s months r L := by
  have hb : ∀ u, 1 ≤ u →
      buildByMonth months (l :: L) u = buildByMonth months L u := by
    intro u hu
    rw [buildByMonth_cons, clipMonth_of_nonpos months l.month h,
      if_neg (by omega)]
    ring
  rw [projectToRetirement, projectToRetirement]
  apply genLoop_congr_le
  intro u V _
  rw [accumStep, accumStep, hb (u+1) (by omega)]

/-- C7: for every start wealth, monthly saving, month count n and
nonzero monthly rate r, the single-regime accumulation projection with
no lump sums ends (last row) at the closed-form annuity value
W0 * (1+r)^n + s * ((1+r)^n - 1) / r. -/
theorem c7_closed_form_annuity (W0 s r : ℚ) (n : ℕ) (hr : r ≠ 0) :
    (projectToRetirement W0 s n r []).getLast? =
      some ⟨n, W0 * (1 + r)^n + s * ((1 + r)^n - 1) / r⟩ := by
  rw [projectToRetirement, genLoop_getLast?, buildByMonth_nil,
    iterFrom_closed_form s r W0 hr n]
  simp

/-- C7 witness at W0 = 2, s = 3, n = 2, r = 1: the projected last row
is month 2 with wealth 17, matching the closed form. -/
theorem c7_closed_form_annuity_witness :
    (projectToRetirement 2 3 2 1 []).getLast? =
      some ⟨2, 2 * (1 + 1)^2 + 3 * ((1 + 1)^2 - 1) / 1⟩ :=
  c7_closed_form_annuity 2 3 1 2 (by norm_num)

/-- C2 counterexample: with startWealth -100, zero saving, no lump
sums and one month of horizon, raising the monthly rate from 0 to 1
lowers the end wealth from -100 to -200, so end wealth is not
non-decreasing in monthlyRate when startWealth may be negative. -/
theorem c2_counterexample :
    (projectToRetirement (-100) 0 1 0 []).getLast? = some ⟨1, -100⟩ ∧
    (projectToRetirement (-100) 0 1 1 []).getLast? = some ⟨1, -200⟩ ∧
    ¬ ((-100 : ℚ) ≤ -200) := by
  refine ⟨?_, ?_, by norm_num⟩ <;>
  · rw [projectToRetirement, genLoop_getLast?, buildByMonth_nil]
    norm_num [iterFrom, accumStep]

/-- C2 amended: the end wealth of the accumulation projection is
non-decreasing in the monthly rate provided the start wealth, the
periodic flow and all lump amounts are non-negative and the rate stays
at or above -1; and it is non-decreasing in the periodic flow for any
start wealth and lump amounts provided the rate is at or above -1.
The end wealth is read through the source's own last-row accessor. -/
theorem c2_amended_monotonicity (W0 s s2 r r2 : ℚ) (n : ℕ) (L : List Lump) :
    (0 ≤ W0 → 0 ≤ s → (∀ l ∈ L, 0 ≤ l.amount) → -1 ≤ r → r ≤ r2 →
      wealthAtRetireWithMonthlyAccum W0 s n L r ≤
        wealthAtRetireWithMonthlyAccum W0 s n L r2) ∧
    (-1 ≤ r → s ≤ s2 →
      wealthAtRetireWithMonthlyAccum W0 s n L r ≤
        wealthAtRetireWithMonthlyAccum W0 s2 n L r) := by
  constructor
  · intro hW hs hL hr hr2
    rw [wealthAtRetireWithMonthlyAccum_eq, wealthAtRetireWithMonthlyAccum_eq]
    exact iterFrom_mono_rate (buildByMonth n L) s r r2 0 W0
      (buildByMonth_nonneg n L hL) hs hr hr2 hW n
  · intro hr hs
    rw [wealthAtRetireWithMonthlyAccum_eq, wealthAtRetireWithMonthlyAccum_eq]
    exact iterFrom_mono_flow (buildByMonth n L) s s2 r 0 W0 hr hs n

/-- C2 amended witness at W0 = 1, s = 1 against s2 = 2, r = 0 against
r2 = 1, n = 3, no lump sums. -/
theorem c2_amended_monotonicity_witness :
    wealthAtRetireWithMonthlyAccum 1 1 3 [] 0 ≤
      wealthAtRetireWithMonthlyAccum 1 1 3 [] 1 ∧
    wealthAtRetireWithMonthlyAccum 1 1 3 [] 0 ≤
      wealthAtRetireWithMonthlyAccum 1 2 3 [] 0 :=
  ⟨(c2_amended_monotonicity 1 1 2 0 1 3 []).1 (by norm_num) (by norm_num)
      (by simp) (by norm_num) (by norm_num),
   (c2_amended_monotonicity 1 1 2 0 1 3 []).2 (by norm_num) (by norm_num)⟩

/-- C5: yearsOfRunway returns none (infinity) whenever annualSpend is
non-positive; W / spend when pct = 0; none when the ratio
1 - W * (pct/100) / spend is non-positive; and the logarithmic closed
form otherwise. -/
theorem c5_yearsOfRunway_cases (W spend pct : ℝ) :
    yearsOfRunway W spend pct =
      if spend ≤ 0 then none
      else if pct = 0 then some (W / spend)
      else if 1 - W * (pct/100) / spend ≤ 0 then none
      else some (-Real.log (1 - W * (pct/100) / spend) /
        Real.log (1 + pct/100)) := by
  rw [yearsOfRunway]
  by_cases h1 : spend ≤ 0
  · simp [h1]
  · simp only [if_neg h1]
    by_cases h2 : pct = 0
    · have h4 : pct / 100 = 0 := by rw [h2]; norm_num
      simp [h2, h4]
    · have h3 : ¬ (pct / 100 = 0) := by
        simp [div_eq_zero_iff, h2]
      simp only [if_neg h2, if_neg h3]

/-- C6: the goal-time estimator returns 0 when the target is
non-positive, and otherwise returns the first month index t within the
cap 1200 at which the wealth recursion reaches the target, none
(infinity) when there is no such index. -/
theorem c6_monthsToGoal_first_crossing (tg W0 s : ℚ) (L : List Lump) (r : ℚ) :
    monthsToGoalAtCurrentPlan tg W0 s L r =
      if tg ≤ 0 then some 0
      else (List.range 1201).find? (fun t =>
        decide (tg ≤ iterFrom (accumStep (buildGoalByMonth L) s r) 0 W0 t)) := by
  rw [monthsToGoalAtCurrentPlan]
  by_cases h : tg ≤ 0
  · simp [h]
  · rw [if_neg h, if_neg h, goalLoop_eq_find?]
    simp

/-- C8: every row emitted by the two-regime projection is the floor at
zero of the internal unfloored wealth recursion at that month —
flooring happens only at emission, so all emitted wealths are
non-negative while the recursion itself is carried forward unfloored. -/
theorem c8_floor_at_emission_only (age : ℤ) (W0 : ℚ) (mtr : ℕ)
    (s ra rr spend : ℚ) (L : List Lump) :
    projectFullTo100 age W0 mtr s ra rr spend L =
      (List.range (monthsTo100 age + 1)).map (fun t =>
        ⟨t, max 0 (iterFrom
          (fullStep (buildByMonth mtr L) mtr s ra rr spend) 0 W0 t)⟩) ∧
    (projectFullTo100 age W0 mtr s ra rr spend L).all
      (fun row => decide (0 ≤ row.wealth)) = true := by
  have hmap : projectFullTo100 age W0 mtr s ra rr spend L =
      (List.range (monthsTo100 age + 1)).map (fun t =>
        ⟨t, max 0 (iterFrom
          (fullStep (buildByMonth mtr L) mtr s ra rr spend) 0 W0 t)⟩) := by
    rw [projectFullTo100, genLoop_eq_map]
    apply List.map_congr_left
    intro i hi
    simp
  refine ⟨hmap, ?_⟩
  rw [hmap, List.all_eq_true]
  intro row hrow
  simp only [List.mem_map] at hrow
  obtain ⟨i, hi, rfl⟩ := hrow
  simp

/-- C10: whenever the total horizon monthsTo100 is at most the
accumulation horizon monthsToRetire, every step of the two-regime
projection takes the accumulation branch, so the emitted series does
not depend on the retirement monthly return or the monthly spend. -/
theorem c10_decum_params_irrelevant (age : ℤ) (W0 : ℚ) (mtr : ℕ)
    (s ra rr1 rr2 spend1 spend2 : ℚ) (L : List Lump)
    (h : monthsTo100 age ≤ mtr) :
    projectFullTo100 age W0 mtr s ra rr1 spend1 L =
      projectFullTo100 age W0 mtr s ra rr2 spend2 L := by
  rw [projectFullTo100, projectFullTo100]
  apply genLoop_congr_range
  intro u V hu1 hu2
  have hu3 : u < mtr := by omega
  rw [fullStep, fullStep, if_pos hu3, if_pos hu3]

/-- C10 witness: at age 100 both horizons are 0 and runs that differ
only in retirement return and monthly spend emit identical rows. -/
theorem c10_decum_params_irrelevant_witness :
    projectFullTo100 100 5 0 1 2 3 4 [] =
      projectFullTo100 100 5 0 1 2 30 40 [] :=
  c10_decum_params_irrelevant 100 5 0 1 2 3 30 4 40 [] (by simp [monthsTo100])

/-- C4: lump sums are bucketed by the clip max(0, min(horizon,
floor(month))) with amounts summed per clipped month; a lump whose
month exceeds the horizon behaves exactly like one scheduled at the
horizon month, leaving every earlier row unchanged and adding its
un-compounded amount to the last row; and a lump with non-positive
month is folded into bucket 0 and never affects any emitted row. -/
theorem c4_lump_clipping (W0 s r : ℚ) (months : ℕ) (l : Lump)
    (L M : List Lump) (t : ℕ) :
    (buildByMonth months M t =
      ((M.filter (fun x => decide (clipMonth months x.month = t))).map
        Lump.amount).sum) ∧
    ((months : ℚ) < l.month →
      projectToRetirement W0 s months r (l :: L) =
        projectToRetirement W0 s months r
          (⟨l.id, (months : ℚ), l.amount⟩ :: L)) ∧
    (l.month ≤ 0 →
      projectToRetirement W0 s months r (l :: L) =
        projectToRetirement W0 s months r L) ∧
    (1 ≤ months → (months : ℚ) < l.month →
      (projectToRetirement W0 s months r (l :: L)).take months =
        (projectToRetirement W0 s months r L).take months ∧
      wealthAtRetireWithMonthlyAccum W0 s months (l :: L) r =
        wealthAtRetireWithMonthlyAccum W0 s months L r + l.amount) := by
  refine ⟨buildByMonth_eq_sum months M t, ?_, ?_, ?_⟩
  · intro h
    have hb : buildByMonth months (l :: L) =
        buildByMonth months (⟨l.id, (months : ℚ), l.amount⟩ :: L) := by
      funext u
      rw [buildByMonth_cons, buildByMonth_cons]
      rw [clipMonth_of_gt months l.month h]
      rw [show clipMonth months ((months : ℕ) : ℚ) = months from
        clipMonth_natCast months months (le_refl months)]
    rw [projectToRetirement, projectToRetirement, hb]
  · exact projectToRetirement_cons_nonpos W0 s r months l L
  · intro h1 h2
    have hclip : clipMonth months l.month = months :=
      clipMonth_of_gt months l.month h2
    have hagree : ∀ u, u ≠ months →
        buildByMonth months (l :: L) u = buildByMonth months L u := by
      intro u hu
      rw [buildByMonth_cons, hclip, if_neg (fun hh => hu hh.symm), add_zero]
    have hM : buildByMonth months (l :: L) months =
        buildByMonth months L months + l.amount := by
      rw [buildByMonth_cons, hclip, if_pos rfl]
    have hiter : ∀ i, i < months →
        iterFrom (accumStep (buildByMonth months (l :: L)) s r) 0 W0 i =
          iterFrom (accumStep (buildByMonth months L) s r) 0 W0 i := by
      intro i hi
      apply iterFrom_congr_lt
      intro u V hu
      rw [accumStep, accumStep, hagree (u+1) (by omega)]
    constructor
    · rw [projectToRetirement, projectToRetirement, genLoop_eq_map,
        genLoop_eq_map, ← List.map_take, ← List.map_take, List.take_range,
        min_eq_left (by omega)]
      apply List.map_congr_left
      intro i hi
      have hi2 : i < months := List.mem_range.mp hi
      rw [hiter i hi2]
    · obtain ⟨k, hk⟩ : ∃ k, months = k + 1 := ⟨months - 1, by omega⟩
      subst hk
      rw [wealthAtRetireWithMonthlyAccum_eq, wealthAtRetireWithMonthlyAccum_eq,
        iterFrom_succ, iterFrom_succ, accumStep, accumStep,
        hiter k (by omega)]
      have hb2 : buildByMonth (k+1) (l :: L) (0 + k + 1) =
          buildByMonth (k+1) L (0 + k + 1) + l.amount := by
        have hz : 0 + k + 1 = k + 1 := by omega
        rw [hz, hM]
      rw [hb2]
      ring

/-- C4 witness: at horizon 2, a lump at month 5 equals one at month 2
and adds its amount 7 to the last row only, while a lump at month -3
leaves the series untouched. -/
theorem c4_lump_clipping_witness :
    (projectToRetirement 1 0 2 0 ((⟨0, 5, 7⟩ : Lump) :: []) =
      projectToRetirement 1 0 2 0 ((⟨0, ((2:ℕ) : ℚ), 7⟩ : Lump) :: [])) ∧
    (projectToRetirement 1 0 2 0 ((⟨0, -3, 7⟩ : Lump) :: []) =
      projectToRetirement 1 0 2 0 []) ∧
    (projectToRetirement 1 0 2 0 ((⟨0, 5, 7⟩ : Lump) :: [])).take 2 =
      (projectToRetirement 1 0 2 0 []).take 2 ∧
    wealthAtRetireWithMonthlyAccum 1 0 2 ((⟨0, 5, 7⟩ : Lump) :: []) 0 =
      wealthAtRetireWithMonthlyAccum 1 0 2 [] 0 + 7 :=
  ⟨(c4_lump_clipping 1 0 0 2 ⟨0, 5, 7⟩ [] [] 0).2.1 (by norm_num),
   (c4_lump_clipping 1 0 0 2 ⟨0, -3, 7⟩ [] [] 0).2.2.1 (by norm_num),
   ((c4_lump_clipping 1 0 0 2 ⟨0, 5, 7⟩ [] [] 0).2.2.2 (by norm_num)
      (by norm_num)).1,
   ((c4_lump_clipping 1 0 0 2 ⟨0, 5, 7⟩ [] [] 0).2.2.2 (by norm_num)
      (by norm_num)).2⟩

/-- C9: the goal-time estimator buckets lump sums by max(1,
floor(month)) with no upper clip, so a lump with non-positive month is
treated exactly like one at month 1 and is disbursed in the first
simulated step, while the single-regime projection folds the same lump
into bucket 0 and never disburses it. -/
theorem c9_goal_clip_no_upper (tg W0 s r r2 : ℚ) (l : Lump)
    (L M : List Lump) (months t : ℕ) :
    (buildGoalByMonth M t =
      ((M.filter (fun x => decide (goalClipMonth x.month = t))).map
        Lump.amount).sum) ∧
    (l.month ≤ 0 →
      monthsToGoalAtCurrentPlan tg W0 s (l :: L) r =
        monthsToGoalAtCurrentPlan tg W0 s (⟨l.id, 1, l.amount⟩ :: L) r) ∧
    (l.month ≤ 0 →
      projectToRetirement W0 s months r2 (l :: L) =
        projectToRetirement W0 s months r2 L) := by
  refine ⟨buildGoalByMonth_eq_sum M t, ?_,
    fun h => projectToRetirement_cons_nonpos W0 s r2 months l L h⟩
  intro h
  have hb : buildGoalByMonth (l :: L) =
      buildGoalByMonth ((⟨l.id, 1, l.amount⟩ : Lump) :: L) := by
    funext u
    rw [buildGoalByMonth_cons, buildGoalByMonth_cons]
    simp only [goalClipMonth_of_nonpos l.month h, goalClipMonth_one]
  rw [monthsToGoalAtCurrentPlan, monthsToGoalAtCurrentPlan, hb]

/-- C9 witness: a lump of 5 at month -2 behaves like one at month 1
for the goal estimator and like no lump at all for the projection. -/
theorem c9_goal_clip_no_upper_witness :
    (monthsToGoalAtCurrentPlan 10 0 1 ((⟨0, -2, 5⟩ : Lump) :: []) 0 =
      monthsToGoalAtCurrentPlan 10 0 1 ((⟨0, 1, 5⟩ : Lump) :: []) 0) ∧
    (projectToRetirement 0 1 3 0 ((⟨0, -2, 5⟩ : Lump) :: []) =
      projectToRetirement 0 1 3 0 []) :=
  ⟨(c9_goal_clip_no_upper 10 0 1 0 0 ⟨0, -2, 5⟩ [] [] 3 0).2.1 (by norm_num),
   (c9_goal_clip_no_upper 10 0 1 0 0 ⟨0, -2, 5⟩ [] [] 3 0).2.2 (by norm_num)⟩

/- Concrete evaluation helpers for the solver claims. -/

theorem iterFrom_zero_plan (rate : ℚ) :
    ∀ n, iterFrom (accumStep (fun _ => 0) 0 rate) 0 0 n = 0 := by
  intro n
  induction n with
  | zero => rfl
  | succ n ih =>
    rw [iterFrom_succ, accumStep, ih]
    ring

theorem wealth_zero_plan (n : ℕ) (rate : ℚ) :
    wealthAtRetireWithMonthlyAccum 0 0 n [] rate = 0 := by
  rw [wealthAtRetireWithMonthlyAccum_eq, buildByMonth_nil, iterFrom_zero_plan]

theorem expandLoop_const (c : ℚ) (hc : 0 < c * c) :
    ∀ (k : ℕ) (loA hiA : ℚ), ∃ lo hi,
      expandLoop (fun _ => c) k loA hiA c c = (lo, hi, c, c) := by
  intro k
  induction k with
  | zero => intro loA hiA; exact ⟨loA, hiA, rfl⟩
  | succ k ih =>
    intro loA hiA
    simp only [expandLoop, if_pos hc]
    by_cases h3 : 3 < hiA + 1/4
    · rw [if_pos h3]
      exact ⟨loA - 1/4, hiA + 1/4, rfl⟩
    · rw [if_neg h3]
      exact ih (loA - 1/4) (hiA + 1/4)

theorem specExpand_constNeg10 :
    specExpand (fun _ : ℚ => (-10:ℚ)) (-(1/2)) (1/2) = none := by
  rw [specExpand]; norm_num
  rw [specExpand]; norm_num
  rw [specExpand]; norm_num
  rw [specExpand]; norm_num
  rw [specExpand]; norm_num
  rw [specExpand]; norm_num
  rw [specExpand]; norm_num
  rw [specExpand]; norm_num
  rw [specExpand]; norm_num
  rw [specExpand]; norm_num
  rw [specExpand]; norm_num

theorem specExpand_c1_instance (g : ℚ → ℚ) :
    specExpand (fun a =>
      wealthAtRetireWithMonthlyAccum 0 0 1 [] (g a) - 10) (-(1/2)) (1/2) =
      none := by
  have hfe : (fun a =>
      wealthAtRetireWithMonthlyAccum 0 0 1 [] (g a) - 10) =
      (fun _ : ℚ => (-10:ℚ)) := by
    funext a
    rw [wealth_zero_plan]
    norm_num
  rw [hfe]
  exact specExpand_constNeg10

/-- C1 counterexample: the solver returns none both for a zero-length
horizon whose wealth already exceeds the target (so the already-met
case does not return 0 there) and for a positive-horizon plan with no
sign-changing bracket, so the not-applicable and unsolvable outcomes
are represented identically and cannot be told apart by a caller.
With start wealth 0, saving 0 and no lump sums, the end wealth is 0 at
every probed rate, so the result does not depend on the abstracted
rate conversion. -/
theorem c1_counterexample :
    solveRequiredMonthlyAccum (fun a => a) 0 0 0 [] 20 10 = none ∧
    solveRequiredMonthlyAccum (fun a => a) 0 0 1 [] 0 10 = none ∧
    (some (0 : ℚ)) ≠ (none : Option ℚ) := by
  refine ⟨by simp [solveRequiredMonthlyAccum], ?_, by simp⟩
  simp only [solveRequiredMonthlyAccum, wealth_zero_plan]
  norm_num
  obtain ⟨lo, hi, hE⟩ := expandLoop_const (-10) (by norm_num) 10 (-(1/2)) (1/2)
  rw [hE]
  intro h
  norm_num at h

/-- C1 amended: the solver returns none for a zero horizon regardless
of whether the target is met; exactly 0 when the horizon is positive
and the projected wealth at retirement meets or exceeds the target;
and none again when the horizon is positive, the target is not met and
the bracket expansion finds no sign change within the cap — so the
already-met result is distinguishable from the other two outcomes,
but not-applicable and unsolvable share the same sentinel. -/
theorem c1_amended_sentinels (g : ℚ → ℚ) (W0 s : ℚ) (n : ℕ)
    (L : List Lump) (war tg : ℚ) :
    (solveRequiredMonthlyAccum g W0 s 0 L war tg = none) ∧
    (n ≠ 0 → tg ≤ war →
      solveRequiredMonthlyAccum g W0 s n L war tg = some 0) ∧
    (n ≠ 0 → war < tg →
      specExpand (fun a =>
        wealthAtRetireWithMonthlyAccum W0 s n L (g a) - tg)
        (-(1/2)) (1/2) = none →
      solveRequiredMonthlyAccum g W0 s n L war tg = none) ∧
    ((some (0 : ℚ)) ≠ (none : Option ℚ)) := by
  refine ⟨by simp [solveRequiredMonthlyAccum], ?_, ?_, by simp⟩
  · intro hn hm
    simp only [solveRequiredMonthlyAccum]
    rw [if_neg hn, if_pos hm]
  · intro hn hm hspec
    simp only [solveRequiredMonthlyAccum]
    rw [if_neg hn, if_neg (not_le.mpr hm)]
    obtain ⟨lo, hi, hE, h1, h2⟩ := expandLoop_eq_spec
      (fun a => wealthAtRetireWithMonthlyAccum W0 s n L (g a) - tg) 10
      (-(1/2)) (1/2) (by norm_num)
    rw [hE]
    by_cases hsign :
        (fun a => wealthAtRetireWithMonthlyAccum W0 s n L (g a) - tg) lo *
        (fun a => wealthAtRetireWithMonthlyAccum W0 s n L (g a) - tg) hi ≤ 0
    · rw [h2 hsign] at hspec
      exact absurd hspec (by simp)
    · rw [if_pos (not_le.mp hsign)]

/-- C1 amended witness: the three sentinel behaviours at concrete
plans, the zero-horizon and no-bracket cases both evaluating to
none and the positive-horizon already-met case to some 0. -/
theorem c1_amended_sentinels_witness :
    solveRequiredMonthlyAccum (fun a => a) 0 0 0 [] 20 10 = none ∧
    solveRequiredMonthlyAccum (fun a => a) 0 0 1 [] 20 10 = some 0 ∧
    solveRequiredMonthlyAccum (fun a => a) 0 0 1 [] 0 10 = none ∧
    (some (0 : ℚ)) ≠ (none : Option ℚ) :=
  ⟨(c1_amended_sentinels (fun a => a) 0 0 1 [] 20 10).1,
   (c1_amended_sentinels (fun a => a) 0 0 1 [] 20 10).2.1 (by norm_num)
     (by norm_num),
   (c1_amended_sentinels (fun a => a) 0 0 1 [] 0 10).2.2.1 (by norm_num)
     (by norm_num) (specExpand_c1_instance (fun a => a)),
   (c1_amended_sentinels (fun a => a) 0 0 1 [] 20 10).2.2.2⟩

/-- C3: for a positive horizon whose target is not already met, the
solver behaves exactly as the spec describes: it expands the initial
annual bracket from -1/2 to 1/2 by 1/4 per side up to the cap 3,
re-testing the sign of end-wealth-minus-target each time, reports none
when no sign change is found, and otherwise runs 40 bisection
iterations on the annual rate, converting to monthly only inside each
evaluation, with early exit within 1 currency unit of the target. -/
theorem c3_solver_follows_spec (g : ℚ → ℚ) (W0 s : ℚ) (n : ℕ)
    (L : List Lump) (war tg : ℚ) (hn : n ≠ 0) (hm : war < tg) :
    solveRequiredMonthlyAccum g W0 s n L war tg =
      solveSpecDescribed g W0 s n L tg := by
  simp only [solveRequiredMonthlyAccum, solveSpecDescribed]
  rw [if_neg hn, if_neg (not_le.mpr hm)]
  obtain ⟨lo, hi, hE, h1, h2⟩ := expandLoop_eq_spec
    (fun a => wealthAtRetireWithMonthlyAccum W0 s n L (g a) - tg) 10
    (-(1/2)) (1/2) (by norm_num)
  rw [hE]
  by_cases hsign :
      (fun a => wealthAtRetireWithMonthlyAccum W0 s n L (g a) - tg) lo *
      (fun a => wealthAtRetireWithMonthlyAccum W0 s n L (g a) - tg) hi ≤ 0
  · rw [h2 hsign, if_neg (not_lt.mpr hsign), bisectLoop_eq_spec]
  · rw [h1 (not_le.mp hsign), if_pos (not_le.mp hsign)]

/-- C3 witness at a concrete positive-horizon, target-not-met plan. -/
theorem c3_solver_follows_spec_witness :
    solveRequiredMonthlyAccum (fun a => a) 5 1 2 [] 3 50 =
      solveSpecDescribed (fun a => a) 5 1 2 [] 50 :=
  c3_solver_follows_spec (fun a => a) 5 1 2 [] 3 50 (by norm_num) (by norm_num)
